import Mathlib

/-!
Verification development for the quartermaster command-line client.

The repository has two near-duplicate Go programs.  The first (an unnamed
source file) contains the archive builder `createAppArchive` plus a command
dispatcher `main`; the second (`q.go`) is a variant of the dispatcher that
omits the `restart` operation and shells out to an external `zip` process
for uploads.

The embedding below models:
  * the exclusion regular expression compiled by `createAppArchive`
    (Go `regexp`, unanchored `MatchString` search, `.` matching any
    character other than a newline) via Brzozowski derivatives;
  * the directory traversal of `filepath.Walk` together with the walk
    callback of `createAppArchive`, over a tree type with injectable
    open/stat/copy failures (the I/O oracle for each visited entry);
  * both `main` functions as functions from a parsed command and an
    environment oracle (credentials file, manifest file, remote-service
    collaborator, external zip process) to the observable outcome: the
    sequence of file writes, collaborator invocations and prints, and
    whether the run ended normally, in a runtime panic (`check`), in
    `log.Fatal`, or in a docopt usage rejection.

Strings are represented as `List Char` (the character data of the Go
strings); file contents are byte lists (`List Nat`).  JSON and YAML
(de)serialization of the connection record and the manifest are abstracted
as the records themselves: the serialized forms are produced and consumed
only by this program and the encodings are injective.  The remote `agent`
package is an external collaborator that is not part of this repository;
it is modelled as an oracle giving each method's returned error and result.
-/

namespace Quartermaster

/-- The characters of a string literal; used to write paths, names and
messages the way the Go source writes them. -/
def chars (s : String) : List Char := s.data

/-! ## Regular expressions

`createAppArchive` compiles
`"(.DS_Store)|(go/.*/.git)|(go/.*/.bzr)|(go/.*/.hg)|(go/pkg)|(go/bin)"`
with `regexp.MustCompile` and filters each traversal path with
`MatchString`, i.e. an unanchored search for a match anywhere in the
path.  In Go regular expressions `.` matches any character except a
newline and the pattern above has no anchors, so we embed exactly the
operators that appear: literal characters, the any-character class,
concatenation, alternation and `*`.  Matching is decided with Brzozowski
derivatives. -/

inductive Rx where
  | fail
  | eps
  | lit (c : Char)
  | dot
  | seq (a b : Rx)
  | alt (a b : Rx)
  | star (a : Rx)

/-- Whether the regular expression accepts the empty string. -/
def nullable : Rx → Bool
  | .fail => false
  | .eps => true
  | .lit _ => false
  | .dot => false
  | .seq a b => nullable a && nullable b
  | .alt a b => nullable a || nullable b
  | .star _ => true

/-- Concatenation with the obvious simplifications (keeps derivative terms
small so that concrete matches evaluate quickly). -/
def mkSeq : Rx → Rx → Rx
  | .fail, _ => .fail
  | _, .fail => .fail
  | .eps, b => b
  | a, .eps => a
  | a, b => .seq a b

/-- Alternation with the obvious simplifications. -/
def mkAlt : Rx → Rx → Rx
  | .fail, b => b
  | a, .fail => a
  | a, b => .alt a b

/-- Brzozowski derivative: the residual expression after consuming one
character. -/
def deriv : Rx → Char → Rx
  | .fail, _ => .fail
  | .eps, _ => .fail
  | .lit c, d => if c = d then .eps else .fail
  | .dot, d => if d = '\n' then .fail else .eps
  | .seq a b, d =>
      if nullable a then mkAlt (mkSeq (deriv a d) b) (deriv b d)
      else mkSeq (deriv a d) b
  | .alt a b, d => mkAlt (deriv a d) (deriv b d)
  | .star a, d => mkSeq (deriv a d) (.star a)

/-- Does some prefix of the string match the expression? -/
def matchHere (r : Rx) : List Char → Bool
  | [] => nullable r
  | c :: s => nullable r || matchHere (deriv r c) s

/-- Go's `Regexp.MatchString`: does the expression match anywhere in the
string? -/
def searchMatch (r : Rx) : List Char → Bool
  | [] => nullable r
  | c :: s => matchHere r (c :: s) || searchMatch r s

/-- The concatenation of literal characters. -/
def lits : List Char → Rx
  | [] => .eps
  | c :: cs => .seq (.lit c) (lits cs)

/-- Declarative matching semantics of the embedded expressions. -/
inductive Matches : Rx → List Char → Prop where
  | eps : Matches .eps []
  | lit (c : Char) : Matches (.lit c) [c]
  | dot (c : Char) (h : c ≠ '\n') : Matches .dot [c]
  | seq {a b : Rx} {s t : List Char} :
      Matches a s → Matches b t → Matches (.seq a b) (s ++ t)
  | altL {a b : Rx} {s : List Char} : Matches a s → Matches (.alt a b) s
  | altR {a b : Rx} {s : List Char} : Matches b s → Matches (.alt a b) s
  | starNil (a : Rx) : Matches (.star a) []
  | starCons {a : Rx} {s t : List Char} :
      Matches a s → Matches (.star a) t → Matches (.star a) (s ++ t)

/-- No character of the list is a newline (the one character Go's `.`
does not match). -/
def noNL (v : List Char) : Bool := v.all fun c => decide (c ≠ '\n')

/-- One `go/.*/.x` branch of the exclusion pattern, for a version-control
directory name `x` (the `.` before `x` is the wildcard `.`). -/
def goVcsRx (vcs : List Char) : Rx :=
  .seq (lits (chars ("go/")))
    (.seq (.star .dot) (.seq (.lit ('/')) (.seq .dot (lits vcs))))

/-- The pattern `createAppArchive` builds:
`"(.DS_Store)" + "|" + "(go/.*/.git)" + "|" + "(go/.*/.bzr)" + "|" +
 "(go/.*/.hg)" + "|" + "(go/pkg)" + "|" + "(go/bin)"`. -/
def exclusionPattern : Rx :=
  .alt (.seq .dot (lits (chars ("DS_Store"))))
    (.alt (goVcsRx (chars ("git")))
      (.alt (goVcsRx (chars ("bzr")))
        (.alt (goVcsRx (chars ("hg")))
          (.alt (lits (chars ("go/pkg"))) (lits (chars ("go/bin")))))))

/-- `patternToExclude.MatchString path` in the source: a traversal path is
skipped exactly when the compiled pattern matches somewhere inside it. -/
def excluded (path : List Char) : Bool := searchMatch exclusionPattern path

/-! ## The spec's version of the exclusion predicate

The specification describes the exclusion rule in terms of path structure:
a path containing `.DS_Store`, or containing a `.git`, `.bzr` or `.hg`
directory segment anywhere beneath a top-level `go` directory, or equal to
a `go/pkg` or `go/bin` subtree.  The following definitions transcribe that
wording so it can be compared with `excluded` above. -/

/-- Is the first list a leading segment of the second (boolean)? -/
def startsWithB : List Char → List Char → Bool
  | [], _ => true
  | _ :: _, [] => false
  | c :: cs, d :: ds => c = d && startsWithB cs ds

/-- Does the needle occur as a contiguous substring of the haystack? -/
def hasSub (needle : List Char) : List Char → Bool
  | [] => startsWithB needle []
  | d :: ds => startsWithB needle (d :: ds) || hasSub needle ds

/-- Split a path into its `/`-separated segments. -/
def segsAux (cur : List Char) : List Char → List (List Char)
  | [] => [cur.reverse]
  | c :: rest => if c = '/' then cur.reverse :: segsAux [] rest
                 else segsAux (c :: cur) rest

/-- The `/`-separated segments of a path. -/
def segs (p : List Char) : List (List Char) := segsAux [] p

/-- Modelled from the spec: "any path containing `.DS_Store`, or containing
a `.git`, `.bzr`, or `.hg` directory segment anywhere beneath a top-level
`go` directory, or equal to a `go/pkg` or `go/bin` subtree".  This is the
spec's wording of the exclusion classification, written independently of
the source's regular expression so the two can be compared. -/
def specExcluded (p : List Char) : Bool :=
  hasSub (chars (".DS_Store")) p
  || (match segs p with
      | [] => false
      | g :: rest =>
          g = chars ("go") &&
          rest.any fun s =>
            s = chars (".git") || s = chars (".bzr") || s = chars (".hg"))
  || p = chars ("go/pkg") || startsWithB (chars ("go/pkg/")) p
  || p = chars ("go/bin") || startsWithB (chars ("go/bin/")) p

/-! ## The file system and the walk

`filepath.Walk` visits every entry under the root, the root itself first,
then the entries of each directory in lexically sorted name order,
depth-first.  A tree node carries the I/O oracle for its visit: whether
`os.Open` succeeds, whether `fi.Stat` succeeds, and for regular files
whether `io.Copy` completes (`copyFail = some w` means the copy fails
after `w` bytes were written into the archive entry).  A directory's
children are listed in the (sorted) order the walk enumerates them.

The walk callback of `createAppArchive`:
  * if the pattern matches the path, does nothing (for a directory the
    walk still descends, since the callback returns the incoming `nil`);
  * otherwise opens and stats the entry; a failure of either is printed
    and returned, which makes `filepath.Walk` abandon the whole traversal
    (a failed `os.Open` yields a `nil` file whose `Stat` reports
    `ErrInvalid`, so both failures surface at the `Stat` check);
  * appends a regular file to the archive; the error of `io.Copy` is
    assigned to an `err` variable local to the `switch` case and is never
    examined, so a failed copy leaves its partial entry and the walk
    continues;
  * ignores directories.

Unmodelled: failures of `os.Create` on the archive path (the source drops
that error), of reading a directory's entries, and of `zip.Writer.Create`
(a `log.Fatal`, subsumed by the close failure below); `filepath.Join` is
plain concatenation with `/` for clean paths. -/

mutual
inductive FNode where
  | file (content : List Nat) (openOk statOk : Bool) (copyFail : Option (List Nat))
  | dir (openOk statOk : Bool) (children : Entries)
inductive Entries where
  | nil
  | cons (name : List Char) (node : FNode) (rest : Entries)
end

/-- The names of a directory's children, in walk order. -/
def entryNames : Entries → List (List Char)
  | .nil => []
  | .cons nm _ rest => nm :: entryNames rest

mutual
/-- No injected I/O failure anywhere in the tree. -/
def errFree : FNode → Bool
  | .file _ o s cf => o && s && cf.isNone
  | .dir o s kids => o && s && errFreeKids kids
def errFreeKids : Entries → Bool
  | .nil => true
  | .cons _ n rest => errFree n && errFreeKids rest
end

mutual
/-- The tree looks like a real directory tree: sibling names are distinct
and no name contains a path separator. -/
def wfNode : FNode → Bool
  | .file _ _ _ _ => true
  | .dir _ _ kids =>
      decide (entryNames kids).Nodup &&
      (entryNames kids).all (fun nm => decide (('/' : Char) ∉ nm)) &&
      wfKids kids
def wfKids : Entries → Bool
  | .nil => true
  | .cons _ n rest => wfNode n && wfKids rest
end

/-- The path `filepath.Join path name` produces for a child of a visited
directory. -/
def childPath (path nm : List Char) : List Char := path ++ '/' :: nm

/-- Result of a traversal: the archive entries written so far, and whether
the walk ran to completion or was abandoned by a non-nil callback error. -/
inductive WalkRes where
  | ok (entries : List (List Char × List Nat))
  | aborted (entries : List (List Char × List Nat))
  deriving DecidableEq

mutual
/-- The visit of one entry (and, for directories, of everything below it). -/
def walkNode (path : List Char) : FNode → WalkRes
  | .file content openOk statOk copyFail =>
      if excluded path then .ok []
      else if openOk && statOk then
        match copyFail with
        | none => .ok [(path, content)]
        | some w => .ok [(path, w)]
      else .aborted []
  | .dir openOk statOk kids =>
      if excluded path then walkKids path kids
      else if openOk && statOk then walkKids path kids
      else .aborted []
/-- The sequential visit of a directory's children; a returned error
abandons the remainder. -/
def walkKids (path : List Char) : Entries → WalkRes
  | .nil => .ok []
  | .cons nm n rest =>
      match walkNode (childPath path nm) n with
      | .ok es =>
          match walkKids path rest with
          | .ok es2 => .ok (es ++ es2)
          | .aborted es2 => .aborted (es ++ es2)
      | .aborted es => .aborted es
end

/-- The entries a traversal result left in the archive. -/
def entriesOfRes : WalkRes → List (List Char × List Nat)
  | .ok es => es
  | .aborted es => es

/-- How a run of `createAppArchive` can end: `fatal` is `log.Fatal`
(immediate process termination, here from a failing `w.Close()`);
`returned err es` is a normal return with the given error value and the
entries present in the (closed) archive. -/
inductive BuildOutcome where
  | fatal
  | returned (err : Option Unit) (entries : List (List Char × List Nat))
  deriving DecidableEq

/-- `createAppArchive(appName, zipFileName)`: creates the archive, walks
the tree rooted at `appName` with the callback above (the return value of
`filepath.Walk` is discarded), then closes the zip writer.  A close error
is `log.Fatal`; otherwise the function returns the close error, i.e.
`nil`.  `closeOk` is the I/O oracle for the close. -/
def createAppArchive (appName : List Char) (root : FNode) (closeOk : Bool) :
    BuildOutcome :=
  if closeOk then .returned none (entriesOfRes (walkNode appName root))
  else .fatal

/-- The entries of a build outcome (none if the process died). -/
def entriesOfOutcome : BuildOutcome → List (List Char × List Nat)
  | .fatal => []
  | .returned _ es => es

/-! ## The spec's description of the archive contents

"the output contains exactly the set of regular files whose paths do not
match the exclusion pattern, each under its original relative path, with
byte-for-byte identical contents to the source file" — transcribed
independently of the walk. -/

mutual
/-- Every regular file below (and including) the visited entry, with its
traversal path and contents, in traversal order. -/
def specFiles (path : List Char) : FNode → List (List Char × List Nat)
  | .file content _ _ _ => [(path, content)]
  | .dir _ _ kids => specFilesKids path kids
def specFilesKids (path : List Char) : Entries → List (List Char × List Nat)
  | .nil => []
  | .cons nm n rest => specFiles (childPath path nm) n ++ specFilesKids path rest
end

/-- Modelled from the spec: the archive the spec promises — all regular
files whose traversal paths do not match the exclusion pattern. -/
def specEntries (appName : List Char) (root : FNode) :
    List (List Char × List Nat) :=
  (specFiles appName root).filter fun e => !(excluded e.1)

/-- A residue of a path after a sibling name: either nothing or a deeper
sub-path starting with the separator. -/
def slashHeaded (r : List Char) : Prop := r = [] ∨ ∃ t, r = '/' :: t

/-! ## The command dispatcher

Both `main` functions parse the command line with docopt, then either
persist the connection record (`connect`) or load it, and dispatch to one
branch per operation.  We model the post-parse command, the environment as
an oracle, and the run's observable behaviour as an event list plus the
way the process ended. -/

/-- The connection record persisted at `$HOME/.agent.json` (its JSON
encoding is abstracted as the record itself). -/
structure Connection where
  service : List Char
  credentials : List Char
  deriving DecidableEq

/-- Modelled from the spec: one entry of the application descriptor's
version list (the `agent` package is an external collaborator whose
source is not in this repository; the spec gives the descriptor shape). -/
structure AppVersion where
  version : List Char
  filename : List Char
  created : List Char
  deriving DecidableEq

/-- Modelled from the spec: one entry of the application descriptor's
worker list. -/
structure Worker where
  container : List Char
  host : List Char
  port : Nat
  version : List Char
  deriving DecidableEq

/-- Modelled from the spec: the application descriptor — identifier, name,
description, capacity, path list, domain list, version list, worker list.
The identifier is kept in its rendered (`Id.Hex()`) form. -/
structure App where
  id : List Char
  name : List Char
  description : List Char
  capacity : Nat
  paths : List (List Char)
  domains : List (List Char)
  versions : List AppVersion
  workers : List Worker
  deriving DecidableEq

/-- A collaborator method invocation, with its arguments. -/
inductive Method where
  | getApps
  | getApp (appid : List Char)
  | createApp (info : App)
  | createAppVersion (appid : List Char) (bytes : List Nat)
  | startApp (appid : List Char)
  | stopApp (appid : List Char)
  | startAppVersion (appid versionid : List Char)
  | stopAppVersion (appid versionid : List Char)
  | deleteApp (appid : List Char)
  | deleteAppVersion (appid versionid : List Char)
  deriving DecidableEq

/-- One observable step of a run. -/
inductive Event where
  | wroteCredFile (c : Connection)
  | printedCredReadError
  | called (m : Method)
  | printedError (e : List Char)
  | printedResult (r : List Char)
  | printedApp (a : App)
  | renderedAppsTable (apps : List App)
  | renderedAppTable (a : App)
  | renderedVersionsTable (vs : List AppVersion)
  | renderedWorkersTable (ws : List Worker)
  | printedArgs
  deriving DecidableEq

/-- The remote-service collaborator, as an oracle: each method's returned
error (written by the call) and its result.  The Go methods fill a result
argument and return an error; both components are always produced, and the
caller decides whether to look at the error. -/
structure Agent where
  getApps : Option (List Char) × List App
  getApp : List Char → Option (List Char) × App
  createApp : App → Option (List Char) × List Char
  createAppVersion : List Char → List Nat → Option (List Char) × List Char
  startApp : List Char → Option (List Char) × List Char
  stopApp : List Char → Option (List Char) × List Char
  startAppVersion : List Char → List Char → Option (List Char) × List Char
  stopAppVersion : List Char → List Char → Option (List Char) × List Char
  deleteApp : List Char → Option (List Char) × List Char
  deleteAppVersion : List Char → List Char → Option (List Char) × List Char

/-- The environment of one process run. -/
structure World where
  agent : Agent
  /-- Contents of `$HOME/.agent.json`; `none` means `ioutil.ReadFile`
  fails (absent or unreadable). -/
  credFile : Option Connection
  /-- Whether `ioutil.WriteFile` of the connection record succeeds. -/
  credWriteOk : Bool
  /-- The decoded `<appname>/app.yaml` manifest; `none` means the read
  fails (the YAML decoding error itself is ignored by the source). -/
  manifest : List Char → Option App
  /-- The directory tree rooted at the path `upload` hands to
  `createAppArchive` (the `<appid>` argument). -/
  appDir : FNode
  /-- Whether closing the zip writer succeeds. -/
  closeOk : Bool
  /-- Output of the external `zip -r` process the `q.go` variant shells
  out to; `none` means the command fails. -/
  zipCmdOut : Option (List Nat)

/-- The parsed command line (docopt's work is out of scope; `show` is
spelled `showApp` because `show` is reserved in Lean). -/
inductive Command where
  | connect (service : List Char) (user pass : Option (List Char))
  | list
  | showApp (appid : List Char)
  | create (appname : List Char)
  | upload (appid : List Char)
  | start (appid : List Char) (versionid : Option (List Char))
  | stop (appid : List Char) (versionid : Option (List Char))
  | restart (appid : List Char) (versionid : Option (List Char))
  | delete (appid : List Char) (versionid : Option (List Char))
  deriving DecidableEq

/-- How a run ends: a normal return, a `check`-induced runtime panic, a
`log.Fatal`, or docopt rejecting the usage (printing the usage text and
exiting before any command logic runs). -/
inductive Outcome where
  | ok (events : List Event)
  | panicked (events : List Event)
  | fatal (events : List Event)
  | usageExit
  deriving DecidableEq

/-- Go's `fmt` verb `%v` on a docopt option value: the string itself, or
the literal text `<nil>` for an absent option. -/
def fmtV : Option (List Char) → List Char
  | some s => s
  | none => chars ("<nil>")

/-- `fmt.Sprintf("%v:%v", arguments["-u"], arguments["-p"])`. -/
def joinCreds (u p : Option (List Char)) : List Char :=
  fmtV u ++ ':' :: fmtV p

/-- The archive bytes `upload` reads back from the zip file just written;
the container encoding is abstracted as a flat rendering of the entries. -/
def zipBytes (es : List (List Char × List Nat)) : List Nat :=
  es.foldr (fun e acc => e.1.length :: e.1.map Char.toNat ++ e.2.length :: e.2 ++ acc) []

/-- Is the command `connect`? -/
def isConnect : Command → Bool
  | .connect _ _ _ => true
  | _ => false

/-- Which commands the `q.go` usage string accepts: its usage lines list
`connect`, `list`, `show`, `create`, `upload`, `start|stop` and `delete`,
but no `restart`. -/
def qUsageAccepts : Command → Bool
  | .restart _ _ => false
  | _ => true

/-- The dispatch of the unnamed variant's `main`, after the connection
record has been loaded.  `list` and `show` test the collaborator's error
and print `Error: ...` before returning; every other branch drops the
error and prints whatever landed in the result. -/
def dispatchP0 (w : World) : Command → Outcome
  | .list =>
      match w.agent.getApps with
      | (some e, _) => .ok [.called .getApps, .printedError e]
      | (none, apps) => .ok [.called .getApps, .renderedAppsTable apps]
  | .showApp appid =>
      match w.agent.getApp appid with
      | (some e, _) => .ok [.called (.getApp appid), .printedError e]
      | (none, app) =>
          .ok ([.called (.getApp appid), .renderedAppTable app]
            ++ (if app.versions.length > 0 then [.renderedVersionsTable app.versions] else [])
            ++ (if app.workers.length > 0 then [.renderedWorkersTable app.workers] else []))
  | .create appname =>
      match w.manifest appname with
      | none => .panicked []
      | some appinfo =>
          match w.agent.createApp appinfo with
          | (_, result) =>
              .ok [.printedApp appinfo, .called (.createApp appinfo),
                   .printedResult result]
  | .upload appid =>
      match w.agent.getApp appid with
      | (_, _app) =>
          match createAppArchive appid w.appDir w.closeOk with
          | .fatal => .fatal [.called (.getApp appid)]
          | .returned _ es =>
              match w.agent.createAppVersion appid (zipBytes es) with
              | (_, result) =>
                  .ok [.called (.getApp appid),
                       .called (.createAppVersion appid (zipBytes es)),
                       .printedResult result]
  | .start appid versionid =>
      match versionid with
      | some v =>
          match w.agent.startAppVersion appid v with
          | (_, r) => .ok [.called (.startAppVersion appid v), .printedResult r]
      | none =>
          match w.agent.startApp appid with
          | (_, r) => .ok [.called (.startApp appid), .printedResult r]
  | .stop appid versionid =>
      match versionid with
      | some v =>
          match w.agent.stopAppVersion appid v with
          | (_, r) => .ok [.called (.stopAppVersion appid v), .printedResult r]
      | none =>
          match w.agent.stopApp appid with
          | (_, r) => .ok [.called (.stopApp appid), .printedResult r]
  | .restart appid versionid =>
      match versionid with
      | some v =>
          match w.agent.stopAppVersion appid v with
          | (_, r1) =>
              match w.agent.startAppVersion appid v with
              | (_, r2) =>
                  .ok [.called (.stopAppVersion appid v), .printedResult r1,
                       .called (.startAppVersion appid v), .printedResult r2]
      | none =>
          match w.agent.stopApp appid with
          | (_, r1) =>
              match w.agent.startApp appid with
              | (_, r2) =>
                  .ok [.called (.stopApp appid), .printedResult r1,
                       .called (.startApp appid), .printedResult r2]
  | .delete appid versionid =>
      match versionid with
      | some v =>
          match w.agent.deleteAppVersion appid v with
          | (_, r) => .ok [.called (.deleteAppVersion appid v), .printedResult r]
      | none =>
          match w.agent.deleteApp appid with
          | (_, r) => .ok [.called (.deleteApp appid), .printedResult r]
  | .connect _ _ _ => .ok [.printedArgs]

/-- The `main` of the unnamed variant: `connect` marshals and writes the
connection record (a failing write panics through `check`) and then falls
through every dispatch test to the final argument dump; any other command
first reads the record, printing `Unable to read agent information ...`
and returning if the read fails. -/
def mainPart000 (w : World) (cmd : Command) : Outcome :=
  match cmd with
  | .connect svc u p =>
      let c : Connection := ⟨svc, joinCreds u p⟩
      if w.credWriteOk then .ok [.wroteCredFile c, .printedArgs]
      else .panicked [.wroteCredFile c]
  | _ =>
      match w.credFile with
      | none => .ok [.printedCredReadError]
      | some _ => dispatchP0 w cmd

/-- The dispatch of the `q.go` variant: no error from the collaborator is
ever examined; `upload` shells out to `zip -r` (a failure of the external
command or of reading its output panics through `check`). -/
def dispatchQ (w : World) : Command → Outcome
  | .list =>
      match w.agent.getApps with
      | (_, apps) => .ok [.called .getApps, .renderedAppsTable apps]
  | .showApp appid =>
      match w.agent.getApp appid with
      | (_, app) =>
          .ok ([.called (.getApp appid), .renderedAppTable app]
            ++ (if app.versions.length > 0 then [.renderedVersionsTable app.versions] else [])
            ++ (if app.workers.length > 0 then [.renderedWorkersTable app.workers] else []))
  | .create appname =>
      match w.manifest appname with
      | none => .panicked []
      | some appinfo =>
          match w.agent.createApp appinfo with
          | (_, result) =>
              .ok [.printedApp appinfo, .called (.createApp appinfo),
                   .printedResult result]
  | .upload appid =>
      match w.agent.getApp appid with
      | (_, _app) =>
          match w.zipCmdOut with
          | none => .panicked [.called (.getApp appid)]
          | some bytes =>
              match w.agent.createAppVersion appid bytes with
              | (_, result) =>
                  .ok [.called (.getApp appid),
                       .called (.createAppVersion appid bytes),
                       .printedResult result]
  | .start appid versionid =>
      match versionid with
      | some v =>
          match w.agent.startAppVersion appid v with
          | (_, r) => .ok [.called (.startAppVersion appid v), .printedResult r]
      | none =>
          match w.agent.startApp appid with
          | (_, r) => .ok [.called (.startApp appid), .printedResult r]
  | .stop appid versionid =>
      match versionid with
      | some v =>
          match w.agent.stopAppVersion appid v with
          | (_, r) => .ok [.called (.stopAppVersion appid v), .printedResult r]
      | none =>
          match w.agent.stopApp appid with
          | (_, r) => .ok [.called (.stopApp appid), .printedResult r]
  | .restart _ _ => .usageExit
  | .delete appid versionid =>
      match versionid with
      | some v =>
          match w.agent.deleteAppVersion appid v with
          | (_, r) => .ok [.called (.deleteAppVersion appid v), .printedResult r]
      | none =>
          match w.agent.deleteApp appid with
          | (_, r) => .ok [.called (.deleteApp appid), .printedResult r]
  | .connect _ _ _ => .ok [.printedArgs]

/-- The `main` of the `q.go` variant.  Its usage string omits `restart`,
so docopt rejects such a command line before any logic runs; a failing
read of the connection record panics through `check`. -/
def mainQ (w : World) (cmd : Command) : Outcome :=
  if qUsageAccepts cmd then
    match cmd with
    | .connect svc u p =>
        let c : Connection := ⟨svc, joinCreds u p⟩
        if w.credWriteOk then .ok [.wroteCredFile c, .printedArgs]
        else .panicked [.wroteCredFile c]
    | _ =>
        match w.credFile with
        | none => .panicked []
        | some _ => dispatchQ w cmd
  else .usageExit

/-- The events of a run. -/
def eventsOf : Outcome → List Event
  | .ok es => es
  | .panicked es => es
  | .fatal es => es
  | .usageExit => []

/-- The collaborator methods a run invoked, in order. -/
def methodsCalled (o : Outcome) : List Method :=
  (eventsOf o).filterMap fun e =>
    match e with
    | .called m => some m
    | _ => none

/-- Did the run print an `Error: ...` line? -/
def hasPrintedError (o : Outcome) : Bool :=
  (eventsOf o).any fun e =>
    match e with
    | .printedError _ => true
    | _ => false

/-! ## Concrete inputs used by the counterexamples and witnesses -/

/-- The spec's scenario tree: `app/` containing `main.go` (100 bytes),
`.git/HEAD` (20 bytes) and `.DS_Store` (10 bytes), children in the sorted
order `filepath.Walk` enumerates them. -/
def appTree : FNode :=
  .dir true true
    (.cons (chars (".DS_Store")) (.file (List.replicate 10 0) true true none)
      (.cons (chars (".git"))
        (.dir true true
          (.cons (chars ("HEAD")) (.file (List.replicate 20 0) true true none) .nil))
        (.cons (chars ("main.go")) (.file (List.replicate 100 0) true true none)
          .nil)))

/-- A tree whose middle file fails to open: `d/a` is archived, the failure
on `d/b` abandons the walk, and `d/c` is never visited. -/
def statFailTree : FNode :=
  .dir true true
    (.cons (chars ("a")) (.file [1, 2] true true none)
      (.cons (chars ("b")) (.file [3] false true none)
        (.cons (chars ("c")) (.file [4] true true none) .nil)))

/-- A minimal application descriptor. -/
def demoApp : App := ⟨chars ("id0"), chars ("demo"), chars ("d"), 1, [], [], [], []⟩

/-- A collaborator for which every method reports the error `boom`. -/
def failingAgent : Agent :=
  { getApps := (some (chars ("boom")), [])
    getApp := fun _ => (some (chars ("boom")), demoApp)
    createApp := fun _ => (some (chars ("boom")), chars ("r1"))
    createAppVersion := fun _ _ => (some (chars ("boom")), chars ("r2"))
    startApp := fun _ => (some (chars ("boom")), chars ("r3"))
    stopApp := fun _ => (some (chars ("boom")), chars ("r4"))
    startAppVersion := fun _ _ => (some (chars ("boom")), chars ("r5"))
    stopAppVersion := fun _ _ => (some (chars ("boom")), chars ("r6"))
    deleteApp := fun _ => (some (chars ("boom")), chars ("r7"))
    deleteAppVersion := fun _ _ => (some (chars ("boom")), chars ("r8")) }

/-- A world whose collaborator always errors, with a readable connection
record and a present manifest. -/
def failWorld : World :=
  { agent := failingAgent
    credFile := some ⟨chars ("http://svc"), chars ("u:p")⟩
    credWriteOk := true
    manifest := fun _ => some demoApp
    appDir := appTree
    closeOk := true
    zipCmdOut := some [9] }

/-- A world with no readable connection record. -/
def noCredWorld : World :=
  { agent := failingAgent
    credFile := none
    credWriteOk := true
    manifest := fun _ => none
    appDir := appTree
    closeOk := true
    zipCmdOut := none }

/-! ## Soundness of the derivative matcher for constructed matches

To show that a concrete path is excluded we construct a declarative match
(`Matches`) for some factor of the path and transport it through the
derivative matcher: a nullability lemma, a derivative lemma, and from
those the fact that `searchMatch` accepts any string containing a matched
factor. -/

theorem matches_mkSeq {a b : Rx} {s t : List Char}
    (ha : Matches a s) (hb : Matches b t) : Matches (mkSeq a b) (s ++ t) := by
  unfold mkSeq
  split
  · cases ha
  · cases hb
  · cases ha; simpa using hb
  · cases hb; simpa using ha
  · exact Matches.seq ha hb

theorem matches_mkAltL {a b : Rx} {s : List Char}
    (h : Matches a s) : Matches (mkAlt a b) s := by
  unfold mkAlt
  split
  · cases h
  · exact h
  · exact Matches.altL h

theorem matches_mkAltR {a b : Rx} {s : List Char}
    (h : Matches b s) : Matches (mkAlt a b) s := by
  unfold mkAlt
  split
  · exact h
  · cases h
  · exact Matches.altR h

theorem nullable_complete : ∀ {r : Rx} {s : List Char},
    Matches r s → s = [] → nullable r = true := by
  intro r s h
  induction h with
  | eps => exact fun _ => rfl
  | lit c => intro h'; simp at h'
  | dot c hc => intro h'; simp at h'
  | seq ha hb iha ihb =>
      intro h'
      rcases List.append_eq_nil.mp h' with ⟨h1, h2⟩
      simp [nullable, iha h1, ihb h2]
  | altL ha ih => intro h'; simp [nullable, ih h']
  | altR hb ih => intro h'; simp [nullable, ih h']
  | starNil a => exact fun _ => rfl
  | starCons ha hb iha ihb => exact fun _ => rfl

theorem deriv_complete : ∀ {r : Rx} {u : List Char}, Matches r u →
    ∀ {c : Char} {s : List Char}, u = c :: s → Matches (deriv r c) s := by
  intro r u h
  induction h with
  | eps => intro c s hcs; simp at hcs
  | lit c0 =>
      intro c s hcs
      injection hcs with h1 h2
      subst h1
      rw [← h2]
      simp only [deriv, if_pos rfl]
      exact Matches.eps
  | dot c0 hc0 =>
      intro c s hcs
      injection hcs with h1 h2
      subst h1
      rw [← h2]
      simp only [deriv, if_neg hc0]
      exact Matches.eps
  | seq ha hb iha ihb =>
      rename_i a b s0 t0
      intro c s hcs
      cases s0 with
      | nil =>
          simp only [List.nil_append] at hcs
          have hn : nullable a = true := nullable_complete ha rfl
          have hd := ihb hcs
          simp only [deriv, if_pos hn]
          exact matches_mkAltR hd
      | cons c0 s0' =>
          rw [List.cons_append] at hcs
          injection hcs with h1 h2
          subst h1
          have hd : Matches (deriv a c0) s0' := iha rfl
          rw [← h2]
          by_cases hn : nullable a = true
          · simp only [deriv, if_pos hn]
            exact matches_mkAltL (matches_mkSeq hd hb)
          · simp only [deriv, if_neg hn]
            exact matches_mkSeq hd hb
  | altL ha ih =>
      intro c s hcs
      simp only [deriv]
      exact matches_mkAltL (ih hcs)
  | altR hb ih =>
      intro c s hcs
      simp only [deriv]
      exact matches_mkAltR (ih hcs)
  | starNil a => intro c s hcs; simp at hcs
  | starCons ha hstar iha ihstar =>
      rename_i a s0 t0
      intro c s hcs
      cases s0 with
      | nil =>
          simp only [List.nil_append] at hcs
          exact ihstar hcs
      | cons c0 s0' =>
          rw [List.cons_append] at hcs
          injection hcs with h1 h2
          subst h1
          have hd : Matches (deriv a c0) s0' := iha rfl
          rw [← h2]
          simp only [deriv]
          exact matches_mkSeq hd hstar

theorem matchHere_of_nullable {r : Rx} (h : nullable r = true) :
    ∀ s, matchHere r s = true := by
  intro s
  cases s with
  | nil => simpa [matchHere] using h
  | cons c t => simp [matchHere, h]

theorem matchHere_complete : ∀ {p : List Char} {r : Rx}, Matches r p →
    ∀ (w : List Char), matchHere r (p ++ w) = true := by
  intro p
  induction p with
  | nil =>
      intro r h w
      exact matchHere_of_nullable (nullable_complete h rfl) w
  | cons c p' ih =>
      intro r h w
      have hd : Matches (deriv r c) p' := deriv_complete h rfl
      simp only [List.cons_append, matchHere, Bool.or_eq_true]
      exact Or.inr (ih hd w)

theorem searchMatch_of_here {r : Rx} {s : List Char}
    (h : matchHere r s = true) : searchMatch r s = true := by
  cases s with
  | nil => simpa [searchMatch, matchHere] using h
  | cons c t => simp [searchMatch, h]

theorem search_complete : ∀ (u : List Char) {p : List Char} {r : Rx},
    Matches r p → ∀ (w : List Char), searchMatch r (u ++ (p ++ w)) = true := by
  intro u
  induction u with
  | nil =>
      intro p r h w
      simpa using searchMatch_of_here (matchHere_complete h w)
  | cons c u' ih =>
      intro p r h w
      simp only [List.cons_append, searchMatch, Bool.or_eq_true]
      exact Or.inr (ih h w)

theorem matches_lits : ∀ (cs : List Char), Matches (lits cs) cs := by
  intro cs
  induction cs with
  | nil => exact Matches.eps
  | cons c cs' ih => simpa [lits] using Matches.seq (Matches.lit c) ih

theorem matches_stardot : ∀ (v : List Char), (∀ c ∈ v, c ≠ '\n') →
    Matches (.star .dot) v := by
  intro v hv
  induction v with
  | nil => exact Matches.starNil .dot
  | cons c v' ih =>
      have h1 : Matches Rx.dot [c] := Matches.dot c (hv c (by simp))
      have h2 : Matches (.star .dot) v' := ih fun d hd => hv d (by simp [hd])
      simpa using Matches.starCons h1 h2

/-! ## Sufficient conditions for exclusion -/

theorem excluded_dsstore (u : List Char) :
    excluded (u ++ chars (".DS_Store")) = true := by
  have h1 : Matches Rx.dot ['.'] := Matches.dot '.' (by decide)
  have h3 : Matches (.seq .dot (lits (chars ("DS_Store"))))
      (['.'] ++ chars ("DS_Store")) := Matches.seq h1 (matches_lits _)
  have he : ['.'] ++ chars ("DS_Store") = chars (".DS_Store") := rfl
  rw [he] at h3
  have hp : Matches exclusionPattern (chars (".DS_Store")) := by
    unfold exclusionPattern
    exact Matches.altL h3
  simpa [excluded] using search_complete u hp []

theorem excluded_gopkg (u w : List Char) :
    excluded (u ++ chars ("go/pkg") ++ w) = true := by
  have hp : Matches exclusionPattern (chars ("go/pkg")) := by
    unfold exclusionPattern
    exact Matches.altR (Matches.altR (Matches.altR (Matches.altR
      (Matches.altL (matches_lits _)))))
  simpa [excluded, List.append_assoc] using search_complete u hp w

theorem excluded_gobin (u w : List Char) :
    excluded (u ++ chars ("go/bin") ++ w) = true := by
  have hp : Matches exclusionPattern (chars ("go/bin")) := by
    unfold exclusionPattern
    exact Matches.altR (Matches.altR (Matches.altR (Matches.altR
      (Matches.altR (matches_lits _)))))
  simpa [excluded, List.append_assoc] using search_complete u hp w

theorem matches_goVcs {v : List Char} (hv : ∀ c ∈ v, c ≠ '\n')
    (vcs : List Char) :
    Matches (goVcsRx vcs) (chars ("go/") ++ (v ++ ('/' :: '.' :: vcs))) := by
  have h1 := matches_lits (chars ("go/"))
  have h2 := matches_stardot v hv
  have h3 : Matches (Rx.lit ('/')) ['/'] := Matches.lit '/'
  have h45 : Matches (.seq .dot (lits vcs)) (['.'] ++ vcs) :=
    Matches.seq (Matches.dot '.' (by decide)) (matches_lits vcs)
  have h345 := Matches.seq h3 h45
  have h2345 := Matches.seq h2 h345
  have hall := Matches.seq h1 h2345
  simpa [goVcsRx] using hall

theorem excluded_goVcsBranch {v : List Char} (vcs : List Char)
    (hbr : Matches exclusionPattern
      (chars ("go/") ++ (v ++ ('/' :: '.' :: vcs)))) (u w : List Char) :
    excluded (u ++ chars ("go/") ++ v ++ ('/' :: '.' :: vcs) ++ w) = true := by
  simpa [excluded, List.append_assoc] using search_complete u hbr w

theorem excluded_go_git (u v w : List Char) (hv : ∀ c ∈ v, c ≠ '\n') :
    excluded (u ++ chars ("go/") ++ v ++ chars ("/.git") ++ w) = true := by
  have hbr : Matches exclusionPattern
      (chars ("go/") ++ (v ++ ('/' :: '.' :: chars ("git")))) := by
    unfold exclusionPattern
    exact Matches.altR (Matches.altL (matches_goVcs hv _))
  have hc : chars ("/.git") = '/' :: '.' :: chars ("git") := rfl
  rw [hc]
  exact excluded_goVcsBranch _ hbr u w

theorem excluded_go_bzr (u v w : List Char) (hv : ∀ c ∈ v, c ≠ '\n') :
    excluded (u ++ chars ("go/") ++ v ++ chars ("/.bzr") ++ w) = true := by
  have hbr : Matches exclusionPattern
      (chars ("go/") ++ (v ++ ('/' :: '.' :: chars ("bzr")))) := by
    unfold exclusionPattern
    exact Matches.altR (Matches.altR (Matches.altL (matches_goVcs hv _)))
  have hc : chars ("/.bzr") = '/' :: '.' :: chars ("bzr") := rfl
  rw [hc]
  exact excluded_goVcsBranch _ hbr u w

theorem excluded_go_hg (u v w : List Char) (hv : ∀ c ∈ v, c ≠ '\n') :
    excluded (u ++ chars ("go/") ++ v ++ chars ("/.hg") ++ w) = true := by
  have hbr : Matches exclusionPattern
      (chars ("go/") ++ (v ++ ('/' :: '.' :: chars ("hg")))) := by
    unfold exclusionPattern
    exact Matches.altR (Matches.altR (Matches.altR (Matches.altL
      (matches_goVcs hv _))))
  have hc : chars ("/.hg") = '/' :: '.' :: chars ("hg") := rfl
  rw [hc]
  exact excluded_goVcsBranch _ hbr u w

/-! ## The walk on an error-free tree produces exactly the spec's archive -/

mutual
theorem walkNode_errFree (path : List Char) (n : FNode) (h : errFree n = true) :
    walkNode path n = .ok ((specFiles path n).filter fun e => !(excluded e.1)) := by
  cases n with
  | file content o s cf =>
      simp only [errFree, Bool.and_eq_true, Option.isNone_iff_eq_none] at h
      obtain ⟨⟨ho, hs⟩, hcf⟩ := h
      subst ho; subst hs; subst hcf
      by_cases hx : excluded path = true
      · simp [walkNode, specFiles, hx]
      · simp [walkNode, specFiles, hx]
  | dir o s kids =>
      simp only [errFree, Bool.and_eq_true] at h
      obtain ⟨⟨ho, hs⟩, hk⟩ := h
      have ih := walkKids_errFree path kids hk
      by_cases hx : excluded path = true
      · simp [walkNode, specFiles, hx, ho, hs, ih]
      · simp [walkNode, specFiles, hx, ho, hs, ih]
theorem walkKids_errFree (path : List Char) (kids : Entries)
    (h : errFreeKids kids = true) :
    walkKids path kids =
      .ok ((specFilesKids path kids).filter fun e => !(excluded e.1)) := by
  cases kids with
  | nil => simp [walkKids, specFilesKids]
  | cons nm n rest =>
      simp only [errFreeKids, Bool.and_eq_true] at h
      obtain ⟨h1, h2⟩ := h
      have ih1 := walkNode_errFree (childPath path nm) n h1
      have ih2 := walkKids_errFree path rest h2
      simp [walkKids, specFilesKids, ih1, ih2, List.filter_append]
end

/-! ## Paths of distinct siblings never collide -/

theorem name_residue_eq : ∀ (n1 : List Char), ('/' : Char) ∉ n1 →
    ∀ (n2 : List Char), ('/' : Char) ∉ n2 → ∀ (r1 r2 : List Char),
    slashHeaded r1 → slashHeaded r2 → n1 ++ r1 = n2 ++ r2 → n1 = n2 := by
  intro n1
  induction n1 with
  | nil =>
      intro _ n2 h2 r1 r2 s1 s2 he
      cases n2 with
      | nil => rfl
      | cons d n2' =>
          exfalso
          rcases s1 with h | ⟨t, ht⟩
          · subst h; simp at he
          · subst ht
            rw [List.nil_append, List.cons_append] at he
            injection he with hd _
            exact h2 (by simp [← hd])
  | cons c n1' ih =>
      intro h1 n2 h2 r1 r2 s1 s2 he
      cases n2 with
      | nil =>
          exfalso
          rcases s2 with h | ⟨t, ht⟩
          · subst h; simp at he
          · subst ht
            rw [List.nil_append, List.cons_append] at he
            injection he with hd _
            exact h1 (by simp [hd])
      | cons d n2' =>
          rw [List.cons_append, List.cons_append] at he
          injection he with hd htl
          subst hd
          have h1' : ('/' : Char) ∉ n1' := fun hm => h1 (by simp [hm])
          have h2' : ('/' : Char) ∉ n2' := fun hm => h2 (by simp [hm])
          rw [ih h1' n2' h2' r1 r2 s1 s2 htl]

mutual
theorem specFiles_shape (path : List Char) (n : FNode) :
    ∀ q ∈ (specFiles path n).map Prod.fst,
      ∃ r, q = path ++ r ∧ slashHeaded r := by
  cases n with
  | file content o s cf =>
      intro q hq
      simp [specFiles] at hq
      subst hq
      exact ⟨[], by simp, Or.inl rfl⟩
  | dir o s kids =>
      intro q hq
      simp only [specFiles] at hq
      obtain ⟨nm, r, _, hqe, _⟩ := specFilesKids_shape path kids q hq
      exact ⟨'/' :: (nm ++ r), hqe, Or.inr ⟨nm ++ r, rfl⟩⟩
theorem specFilesKids_shape (path : List Char) (kids : Entries) :
    ∀ q ∈ (specFilesKids path kids).map Prod.fst,
      ∃ nm r, nm ∈ entryNames kids ∧ q = path ++ '/' :: (nm ++ r)
        ∧ slashHeaded r := by
  cases kids with
  | nil => intro q hq; simp [specFilesKids] at hq
  | cons nm n rest =>
      intro q hq
      simp only [specFilesKids, List.map_append, List.mem_append] at hq
      rcases hq with hq | hq
      · obtain ⟨r, hqe, hr⟩ := specFiles_shape (childPath path nm) n q hq
        refine ⟨nm, r, by simp [entryNames], ?_, hr⟩
        simpa [childPath, List.append_assoc] using hqe
      · obtain ⟨nm', r, hmem, hqe, hr⟩ := specFilesKids_shape path rest q hq
        exact ⟨nm', r, by simp [entryNames, hmem], hqe, hr⟩
end

mutual
theorem specFiles_nodup (path : List Char) (n : FNode) (h : wfNode n = true) :
    ((specFiles path n).map Prod.fst).Nodup := by
  cases n with
  | file content o s cf => simp [specFiles]
  | dir o s kids =>
      simp only [wfNode, Bool.and_eq_true, decide_eq_true_eq,
        List.all_eq_true] at h
      obtain ⟨⟨hnd, hsl⟩, hwf⟩ := h
      exact specFilesKids_nodup path kids hwf hnd hsl
theorem specFilesKids_nodup (path : List Char) (kids : Entries)
    (hwf : wfKids kids = true) (hnd : (entryNames kids).Nodup)
    (hsl : ∀ nm ∈ entryNames kids, ('/' : Char) ∉ nm) :
    ((specFilesKids path kids).map Prod.fst).Nodup := by
  cases kids with
  | nil => simp [specFilesKids]
  | cons nm n rest =>
      simp only [wfKids, Bool.and_eq_true] at hwf
      obtain ⟨hw1, hw2⟩ := hwf
      simp only [entryNames, List.nodup_cons] at hnd
      obtain ⟨hnotin, hndrest⟩ := hnd
      have hslnm : ('/' : Char) ∉ nm := hsl nm (by simp [entryNames])
      have hslrest : ∀ m ∈ entryNames rest, ('/' : Char) ∉ m := fun m hm =>
        hsl m (by simp [entryNames, hm])
      have hn1 := specFiles_nodup (childPath path nm) n hw1
      have hn2 := specFilesKids_nodup path rest hw2 hndrest hslrest
      simp only [specFilesKids, List.map_append]
      refine List.Nodup.append hn1 hn2 ?_
      intro q hq1 hq2
      obtain ⟨r1, hqe1, hr1⟩ := specFiles_shape (childPath path nm) n q hq1
      obtain ⟨nm2, r2, hm2, hqe2, hr2⟩ := specFilesKids_shape path rest q hq2
      have hqe1' : q = path ++ '/' :: (nm ++ r1) := by
        simpa [childPath, List.append_assoc] using hqe1
      have he : path ++ '/' :: (nm ++ r1) = path ++ '/' :: (nm2 ++ r2) :=
        hqe1'.symm.trans hqe2
      have he2 : nm ++ r1 = nm2 ++ r2 := by
        have hc := List.append_cancel_left he
        injection hc
      have hnm : nm = nm2 :=
        name_residue_eq nm hslnm nm2 (hslrest nm2 hm2) r1 r2 hr1 hr2 he2
      exact hnotin (hnm ▸ hm2)
end

/-! ## The claims about the archive builder -/

/-- C1: for every well-formed directory tree with no I/O failures, the
archive produced by `createAppArchive` consists of exactly the regular
files whose traversal paths do not match the exclusion pattern, each under
its original traversal path with its source contents (`specEntries`, the
spec's description, contains no directory entries by construction), and
each path appears exactly once. -/
theorem archive_matches_spec (appName : List Char) (root : FNode)
    (he : errFree root = true) (hw : wfNode root = true) :
    createAppArchive appName root true = .returned none (specEntries appName root)
    ∧ ((specEntries appName root).map Prod.fst).Nodup := by
  constructor
  · simp [createAppArchive, walkNode_errFree appName root he, entriesOfRes,
      specEntries]
  · have h1 := specFiles_nodup appName root hw
    have hsub : List.Sublist (specEntries appName root) (specFiles appName root) :=
      List.filter_sublist _
    exact List.Nodup.sublist (hsub.map Prod.fst) h1

/-- Witness for C1 at the spec's scenario tree. -/
theorem archive_matches_spec_witness :
    createAppArchive (chars ("app")) appTree true =
        .returned none (specEntries (chars ("app")) appTree)
    ∧ ((specEntries (chars ("app")) appTree).map Prod.fst).Nodup :=
  archive_matches_spec (chars ("app")) appTree (by decide) (by decide)

/-- C2 counterexample: the path `django/pkg` is excluded by the source's
pattern (the unanchored search finds the substring `go/pkg` inside
`django/pkg`), while the spec's structured predicate — which requires a
top-level `go` directory or a `go/pkg` subtree — does not classify it as
excluded, so the claimed equivalence of the two classifications fails. -/
theorem exclusion_predicate_cex :
    excluded (chars ("django/pkg")) = true
    ∧ specExcluded (chars ("django/pkg")) = false := by decide

/-- C2 amended: exclusion is the regular-expression match itself (broader
than the spec's structured predicate), but the claimed consequence for the
output holds: in an error-free build no archive entry's path ends in
`.DS_Store`, contains `go/pkg` or `go/bin`, or contains a
`go/<middle>/.git`, `.bzr` or `.hg` shape (for any newline-free middle,
`.` standing for an arbitrary character in the last position). -/
theorem exclusion_regex_consequences (appName : List Char) (root : FNode)
    (he : errFree root = true) :
    ∀ pr ∈ entriesOfOutcome (createAppArchive appName root true),
      (∀ u, pr.1 ≠ u ++ chars (".DS_Store"))
      ∧ (∀ u w, pr.1 ≠ u ++ chars ("go/pkg") ++ w)
      ∧ (∀ u w, pr.1 ≠ u ++ chars ("go/bin") ++ w)
      ∧ (∀ u v w, noNL v = true →
          pr.1 ≠ u ++ chars ("go/") ++ v ++ chars ("/.git") ++ w)
      ∧ (∀ u v w, noNL v = true →
          pr.1 ≠ u ++ chars ("go/") ++ v ++ chars ("/.bzr") ++ w)
      ∧ (∀ u v w, noNL v = true →
          pr.1 ≠ u ++ chars ("go/") ++ v ++ chars ("/.hg") ++ w) := by
  intro pr hpr
  have hex : excluded pr.1 = false := by
    rw [createAppArchive] at hpr
    rw [walkNode_errFree appName root he] at hpr
    simp only [if_pos rfl, entriesOfOutcome, entriesOfRes] at hpr
    have := List.of_mem_filter hpr
    simpa using this
  have cv : ∀ (v : List Char), noNL v = true → ∀ c ∈ v, c ≠ '\n' := by
    intro v hv
    simpa [noNL] using hv
  refine ⟨?_, ?_, ?_, ?_, ?_, ?_⟩
  · intro u hq
    rw [hq, excluded_dsstore u] at hex
    simp at hex
  · intro u w hq
    rw [hq, excluded_gopkg u w] at hex
    simp at hex
  · intro u w hq
    rw [hq, excluded_gobin u w] at hex
    simp at hex
  · intro u v w hv hq
    rw [hq, excluded_go_git u v w (cv v hv)] at hex
    simp at hex
  · intro u v w hv hq
    rw [hq, excluded_go_bzr u v w (cv v hv)] at hex
    simp at hex
  · intro u v w hv hq
    rw [hq, excluded_go_hg u v w (cv v hv)] at hex
    simp at hex

/-- Witness for the amended C2: the `app/main.go` entry of the scenario
build is not a `.DS_Store`-suffixed path and not a `go/pkg` path. -/
theorem exclusion_regex_consequences_witness :
    chars ("app/main.go") ≠ chars ("app/main") ++ chars (".DS_Store")
    ∧ chars ("app/main.go") ≠ chars ("x") ++ chars ("go/pkg") ++ chars ("y") := by
  have h := exclusion_regex_consequences (chars ("app")) appTree (by decide)
    (chars ("app/main.go"), List.replicate 100 0) (by decide)
  exact ⟨h.1 (chars ("app/main")), h.2.1 (chars ("x")) (chars ("y"))⟩

/-- C3 counterexample: for the spec's scenario tree the archive does not
consist of the single entry `app/main.go` — the `.git/HEAD` file is also
archived, because the pattern only excludes `.git` beneath a `go/` path. -/
theorem scenario_app_cex :
    (entriesOfOutcome (createAppArchive (chars ("app")) appTree true)).map
        Prod.fst ≠ [chars ("app/main.go")] := by decide

/-- C3 amended: building the scenario tree yields exactly two entries,
`app/.git/HEAD` with its 20 bytes and `app/main.go` with its 100 bytes
(`app/.DS_Store` alone is excluded). -/
theorem scenario_app_two_entries :
    createAppArchive (chars ("app")) appTree true =
      .returned none
        [(chars ("app/.git/HEAD"), List.replicate 20 0),
         (chars ("app/main.go"), List.replicate 100 0)] := by decide

/-- C4 counterexample: a failing `os.Open` on `d/b` is not fatal to the
operation — the walk is abandoned, yet the builder closes the archive and
returns a nil error together with a partial archive (only `d/a`; the spec
side shows `d/b` and `d/c` are missing), so the caller sees success. -/
theorem builder_swallows_error_cex :
    errFree statFailTree = false
    ∧ createAppArchive (chars ("d")) statFailTree true =
        .returned none [(chars ("d/a"), [1, 2])]
    ∧ specEntries (chars ("d")) statFailTree ≠ [(chars ("d/a"), [1, 2])] := by
  decide

/-- C4 amended: the builder's true failure semantics.  A failing close of
the zip writer is fatal (`log.Fatal`); on any other run the builder
returns a nil error — it never propagates an I/O error.  An open or stat
failure on a non-excluded entry aborts the rest of the traversal (the
entries archived so far are kept), and a failed copy is silently ignored,
leaving an entry with whatever bytes were written. -/
theorem builder_error_semantics :
    (∀ (a : List Char) (r : FNode) (c : Bool) (err : Option Unit)
        (es : List (List Char × List Nat)),
        createAppArchive a r c = .returned err es → err = none)
    ∧ (∀ (a : List Char) (r : FNode), createAppArchive a r false = .fatal)
    ∧ (∀ (a : List Char) (r : FNode), createAppArchive a r true =
        .returned none (entriesOfRes (walkNode a r)))
    ∧ (∀ (path nm : List Char) (n : FNode) (rest : Entries)
        (es : List (List Char × List Nat)),
        walkNode (childPath path nm) n = .aborted es →
        walkKids path (.cons nm n rest) = .aborted es)
    ∧ (∀ (path : List Char) (content : List Nat) (o s : Bool)
        (cf : Option (List Nat)), (o && s) = false → excluded path = false →
        walkNode path (.file content o s cf) = .aborted [])
    ∧ (∀ (path : List Char) (content w : List Nat), excluded path = false →
        walkNode path (.file content true true (some w)) = .ok [(path, w)]) := by
  refine ⟨?_, ?_, ?_, ?_, ?_, ?_⟩
  · intro a r c err es h
    cases c with
    | true =>
        rw [createAppArchive, if_pos rfl] at h
        injection h with h1 _
        exact h1.symm
    | false => simp [createAppArchive] at h
  · intro a r; rfl
  · intro a r; rfl
  · intro path nm n rest es h
    simp [walkKids, h]
  · intro path content o s cf h hx
    simp [walkNode, hx, h]
  · intro path content w hx
    simp [walkNode, hx]

/-- Witness for the amended C4 at concrete inputs: the failing-open file
aborts, the close failure is fatal, and the builder's nil return. -/
theorem builder_error_semantics_witness :
    walkNode (chars ("d/b")) (.file [3] false true none) = .aborted []
    ∧ createAppArchive (chars ("d")) statFailTree false = .fatal
    ∧ (none : Option Unit) = none :=
  ⟨builder_error_semantics.2.2.2.2.1 (chars ("d/b")) [3] false true none
      (by decide) (by decide),
   builder_error_semantics.2.1 (chars ("d")) statFailTree,
   builder_error_semantics.1 (chars ("d")) statFailTree true none
      (entriesOfRes (walkNode (chars ("d")) statFailTree)) (by decide)⟩

/-- C8: building from an empty directory tree yields an archive with zero
entries and no error, whatever the root path is. -/
theorem empty_tree_archive (appName : List Char) :
    createAppArchive appName (.dir true true .nil) true =
      .returned none [] := by
  by_cases hx : excluded appName = true <;>
    simp [createAppArchive, walkNode, walkKids, entriesOfRes, hx]

/-- C9: the builder is a pure function of the tree it walks (the prior
archive file is truncated by `os.Create` and never read), so two runs
against an unchanged tree yield identical entry lists — the same path set
and byte-for-byte the same contents. -/
theorem builder_deterministic (appName : List Char) (root : FNode) :
    entriesOfOutcome (createAppArchive appName root true) =
      entriesOfOutcome (createAppArchive appName root true)
    ∧ (entriesOfOutcome (createAppArchive appName root true)).map Prod.fst =
      (entriesOfOutcome (createAppArchive appName root true)).map Prod.fst :=
  ⟨rfl, rfl⟩

/-! ## The claims about the command dispatcher -/

/-- C5 counterexample: the collaborator's `CreateApp` reports an error, yet
the `create` command of the unnamed variant neither prints it nor aborts —
it prints the (error-accompanied) result and finishes normally, so the
propagation policy is not uniform across operations. -/
theorem collaborator_error_discarded_cex :
    (failWorld.agent.createApp demoApp).1 = some (chars ("boom"))
    ∧ mainPart000 failWorld (.create (chars ("demo"))) =
        .ok [.printedApp demoApp, .called (.createApp demoApp),
             .printedResult (chars ("r1"))]
    ∧ hasPrintedError (mainPart000 failWorld (.create (chars ("demo")))) =
        false := by decide

/-- C5 amended: only `list` and `show` print the collaborator's error and
abort; for `create`, `upload`, `start`, `stop`, `restart` and `delete`
the error component of every call is discarded — the run's output is the
same whatever that component is, and the result is printed regardless. -/
theorem error_propagation_by_command :
    (∀ (w : World) (c : Connection) (e : List Char) (apps : List App),
        w.credFile = some c → w.agent.getApps = (some e, apps) →
        mainPart000 w .list = .ok [.called .getApps, .printedError e])
    ∧ (∀ (w : World) (c : Connection) (id e : List Char) (app : App),
        w.credFile = some c → w.agent.getApp id = (some e, app) →
        mainPart000 w (.showApp id) =
          .ok [.called (.getApp id), .printedError e])
    ∧ (∀ (w : World) (c : Connection) (an : List Char) (info : App)
        (er : Option (List Char)) (r : List Char),
        w.credFile = some c → w.manifest an = some info →
        w.agent.createApp info = (er, r) →
        mainPart000 w (.create an) =
          .ok [.printedApp info, .called (.createApp info), .printedResult r])
    ∧ (∀ (w : World) (c : Connection) (id : List Char)
        (e1 : Option (List Char)) (app : App) (e2 : Option (List Char))
        (r : List Char),
        w.credFile = some c → w.closeOk = true →
        w.agent.getApp id = (e1, app) →
        w.agent.createAppVersion id
            (zipBytes (entriesOfRes (walkNode id w.appDir))) = (e2, r) →
        mainPart000 w (.upload id) =
          .ok [.called (.getApp id),
               .called (.createAppVersion id
                 (zipBytes (entriesOfRes (walkNode id w.appDir)))),
               .printedResult r])
    ∧ (∀ (w : World) (c : Connection) (id : List Char)
        (er : Option (List Char)) (r : List Char),
        w.credFile = some c → w.agent.startApp id = (er, r) →
        mainPart000 w (.start id none) =
          .ok [.called (.startApp id), .printedResult r])
    ∧ (∀ (w : World) (c : Connection) (id v : List Char)
        (er : Option (List Char)) (r : List Char),
        w.credFile = some c → w.agent.startAppVersion id v = (er, r) →
        mainPart000 w (.start id (some v)) =
          .ok [.called (.startAppVersion id v), .printedResult r])
    ∧ (∀ (w : World) (c : Connection) (id : List Char)
        (er : Option (List Char)) (r : List Char),
        w.credFile = some c → w.agent.stopApp id = (er, r) →
        mainPart000 w (.stop id none) =
          .ok [.called (.stopApp id), .printedResult r])
    ∧ (∀ (w : World) (c : Connection) (id v : List Char)
        (er : Option (List Char)) (r : List Char),
        w.credFile = some c → w.agent.stopAppVersion id v = (er, r) →
        mainPart000 w (.stop id (some v)) =
          .ok [.called (.stopAppVersion id v), .printedResult r])
    ∧ (∀ (w : World) (c : Connection) (id : List Char)
        (e1 : Option (List Char)) (r1 : List Char) (e2 : Option (List Char))
        (r2 : List Char),
        w.credFile = some c → w.agent.stopApp id = (e1, r1) →
        w.agent.startApp id = (e2, r2) →
        mainPart000 w (.restart id none) =
          .ok [.called (.stopApp id), .printedResult r1,
               .called (.startApp id), .printedResult r2])
    ∧ (∀ (w : World) (c : Connection) (id v : List Char)
        (e1 : Option (List Char)) (r1 : List Char) (e2 : Option (List Char))
        (r2 : List Char),
        w.credFile = some c → w.agent.stopAppVersion id v = (e1, r1) →
        w.agent.startAppVersion id v = (e2, r2) →
        mainPart000 w (.restart id (some v)) =
          .ok [.called (.stopAppVersion id v), .printedResult r1,
               .called (.startAppVersion id v), .printedResult r2])
    ∧ (∀ (w : World) (c : Connection) (id : List Char)
        (er : Option (List Char)) (r : List Char),
        w.credFile = some c → w.agent.deleteApp id = (er, r) →
        mainPart000 w (.delete id none) =
          .ok [.called (.deleteApp id), .printedResult r])
    ∧ (∀ (w : World) (c : Connection) (id v : List Char)
        (er : Option (List Char)) (r : List Char),
        w.credFile = some c → w.agent.deleteAppVersion id v = (er, r) →
        mainPart000 w (.delete id (some v)) =
          .ok [.called (.deleteAppVersion id v), .printedResult r]) := by
  refine ⟨?_, ?_, ?_, ?_, ?_, ?_, ?_, ?_, ?_, ?_, ?_, ?_⟩
  · intro w c e apps hc ha
    simp [mainPart000, dispatchP0, hc, ha]
  · intro w c id e app hc ha
    simp [mainPart000, dispatchP0, hc, ha]
  · intro w c an info er r hc hm ha
    simp [mainPart000, dispatchP0, hc, hm, ha]
  · intro w c id e1 app e2 r hc hk hg ha
    simp [mainPart000, dispatchP0, hc, hg, createAppArchive, hk, ha]
  · intro w c id er r hc ha
    simp [mainPart000, dispatchP0, hc, ha]
  · intro w c id v er r hc ha
    simp [mainPart000, dispatchP0, hc, ha]
  · intro w c id er r hc ha
    simp [mainPart000, dispatchP0, hc, ha]
  · intro w c id v er r hc ha
    simp [mainPart000, dispatchP0, hc, ha]
  · intro w c id e1 r1 e2 r2 hc h1 h2
    simp [mainPart000, dispatchP0, hc, h1, h2]
  · intro w c id v e1 r1 e2 r2 hc h1 h2
    simp [mainPart000, dispatchP0, hc, h1, h2]
  · intro w c id er r hc ha
    simp [mainPart000, dispatchP0, hc, ha]
  · intro w c id v er r hc ha
    simp [mainPart000, dispatchP0, hc, ha]

/-- Witness for the amended C5: the always-erroring collaborator. -/
theorem error_propagation_by_command_witness :
    mainPart000 failWorld .list =
        .ok [.called .getApps, .printedError (chars ("boom"))]
    ∧ mainPart000 failWorld (.start (chars ("a")) none) =
        .ok [.called (.startApp (chars ("a"))), .printedResult (chars ("r3"))] :=
  ⟨error_propagation_by_command.1 failWorld
      ⟨chars ("http://svc"), chars ("u:p")⟩ (chars ("boom")) [] rfl rfl,
   error_propagation_by_command.2.2.2.2.1 failWorld
      ⟨chars ("http://svc"), chars ("u:p")⟩ (chars ("a"))
      (some (chars ("boom"))) (chars ("r3")) rfl rfl⟩

/-- C6: `connect` creates or overwrites the persisted connection record
(service endpoint plus credential string) in both variants, write first;
every other command reads that file before anything else, and a missing or
unreadable file aborts the command with a user-facing error — a printed
message and normal return in the unnamed variant, a `check` panic in the
`q.go` variant — before any collaborator call. -/
theorem credentials_file_lifecycle :
    (∀ (w : World) (svc : List Char) (u p : Option (List Char)),
        mainPart000 w (.connect svc u p) =
          (if w.credWriteOk then
            Outcome.ok [.wroteCredFile ⟨svc, joinCreds u p⟩, .printedArgs]
          else Outcome.panicked [.wroteCredFile ⟨svc, joinCreds u p⟩]))
    ∧ (∀ (w : World) (svc : List Char) (u p : Option (List Char)),
        mainQ w (.connect svc u p) =
          (if w.credWriteOk then
            Outcome.ok [.wroteCredFile ⟨svc, joinCreds u p⟩, .printedArgs]
          else Outcome.panicked [.wroteCredFile ⟨svc, joinCreds u p⟩]))
    ∧ (∀ (w : World) (cmd : Command), isConnect cmd = false →
        w.credFile = none →
        mainPart000 w cmd = .ok [.printedCredReadError]
        ∧ methodsCalled (mainPart000 w cmd) = [])
    ∧ (∀ (w : World) (cmd : Command), isConnect cmd = false →
        w.credFile = none → qUsageAccepts cmd = true →
        mainQ w cmd = .panicked []
        ∧ methodsCalled (mainQ w cmd) = []) := by
  refine ⟨fun w svc u p => rfl, fun w svc u p => rfl, ?_, ?_⟩
  · intro w cmd hc hf
    cases cmd <;>
      simp_all [mainPart000, isConnect, methodsCalled, eventsOf]
  · intro w cmd hc hf hq
    cases cmd <;>
      simp_all [mainQ, isConnect, qUsageAccepts, methodsCalled, eventsOf]

/-- Witness for C6: a world with no readable connection record. -/
theorem credentials_file_lifecycle_witness :
    (mainPart000 noCredWorld .list = .ok [.printedCredReadError]
      ∧ methodsCalled (mainPart000 noCredWorld .list) = [])
    ∧ (mainQ noCredWorld .list = .panicked []
      ∧ methodsCalled (mainQ noCredWorld .list) = []) :=
  ⟨credentials_file_lifecycle.2.2.1 noCredWorld .list rfl rfl,
   credentials_file_lifecycle.2.2.2 noCredWorld .list rfl rfl rfl⟩

/-- C7 counterexample: `restart` is not mapped 1:1 to a single collaborator
method — it invokes two (`StopApp` then `StartApp`). -/
theorem restart_two_calls_cex :
    methodsCalled (mainPart000 failWorld (.restart (chars ("a")) none)) =
      [.stopApp (chars ("a")), .startApp (chars ("a"))]
    ∧ (methodsCalled
        (mainPart000 failWorld (.restart (chars ("a")) none))).length ≠ 1 := by
  decide

/-- C7 amended: with a readable connection record, `list`, `show`,
`create`, `start`, `stop` and `delete` each invoke exactly one
collaborator method (the version-scoped variant when a version identifier
is given); `upload` invokes two (`GetApp`, then `CreateAppVersion` with
the archive bytes); `restart` invokes two (stop then start); `connect`
invokes none; and `restart` is recognized only by the unnamed variant —
the `q.go` usage omits it, so that variant rejects it before any logic
runs. -/
theorem operation_method_mapping :
    (∀ (w : World) (svc : List Char) (u p : Option (List Char)),
        methodsCalled (mainPart000 w (.connect svc u p)) = [])
    ∧ (∀ (w : World) (c : Connection), w.credFile = some c →
        methodsCalled (mainPart000 w .list) = [.getApps])
    ∧ (∀ (w : World) (c : Connection) (id : List Char), w.credFile = some c →
        methodsCalled (mainPart000 w (.showApp id)) = [.getApp id])
    ∧ (∀ (w : World) (c : Connection) (an : List Char) (info : App),
        w.credFile = some c → w.manifest an = some info →
        methodsCalled (mainPart000 w (.create an)) = [.createApp info])
    ∧ (∀ (w : World) (c : Connection) (id : List Char),
        w.credFile = some c → w.closeOk = true →
        methodsCalled (mainPart000 w (.upload id)) =
          [.getApp id, .createAppVersion id
            (zipBytes (entriesOfRes (walkNode id w.appDir)))])
    ∧ (∀ (w : World) (c : Connection) (id : List Char), w.credFile = some c →
        methodsCalled (mainPart000 w (.start id none)) = [.startApp id])
    ∧ (∀ (w : World) (c : Connection) (id v : List Char),
        w.credFile = some c →
        methodsCalled (mainPart000 w (.start id (some v))) =
          [.startAppVersion id v])
    ∧ (∀ (w : World) (c : Connection) (id : List Char), w.credFile = some c →
        methodsCalled (mainPart000 w (.stop id none)) = [.stopApp id])
    ∧ (∀ (w : World) (c : Connection) (id v : List Char),
        w.credFile = some c →
        methodsCalled (mainPart000 w (.stop id (some v))) =
          [.stopAppVersion id v])
    ∧ (∀ (w : World) (c : Connection) (id : List Char), w.credFile = some c →
        methodsCalled (mainPart000 w (.delete id none)) = [.deleteApp id])
    ∧ (∀ (w : World) (c : Connection) (id v : List Char),
        w.credFile = some c →
        methodsCalled (mainPart000 w (.delete id (some v))) =
          [.deleteAppVersion id v])
    ∧ (∀ (w : World) (c : Connection) (id : List Char), w.credFile = some c →
        methodsCalled (mainPart000 w (.restart id none)) =
          [.stopApp id, .startApp id])
    ∧ (∀ (w : World) (c : Connection) (id v : List Char),
        w.credFile = some c →
        methodsCalled (mainPart000 w (.restart id (some v))) =
          [.stopAppVersion id v, .startAppVersion id v])
    ∧ (∀ (w : World) (id : List Char) (v : Option (List Char)),
        mainQ w (.restart id v) = .usageExit)
    ∧ qUsageAccepts (.restart (chars ("a")) none) = false := by
  refine ⟨?_, ?_, ?_, ?_, ?_, ?_, ?_, ?_, ?_, ?_, ?_, ?_, ?_,
    fun w id v => rfl, rfl⟩
  · intro w svc u p
    by_cases h : w.credWriteOk = true <;>
      simp [mainPart000, methodsCalled, eventsOf, h]
  · intro w c hc
    rcases ha : w.agent.getApps with ⟨e, apps⟩
    cases e <;> simp [mainPart000, dispatchP0, hc, ha, methodsCalled, eventsOf]
  · intro w c id hc
    rcases ha : w.agent.getApp id with ⟨e, app⟩
    cases e <;>
      simp [mainPart000, dispatchP0, hc, ha, methodsCalled, eventsOf]
  · intro w c an info hc hm
    rcases ha : w.agent.createApp info with ⟨e, r⟩
    simp [mainPart000, dispatchP0, hc, hm, ha, methodsCalled, eventsOf]
  · intro w c id hc hk
    rcases hg : w.agent.getApp id with ⟨e1, app⟩
    rcases ha : w.agent.createAppVersion id
        (zipBytes (entriesOfRes (walkNode id w.appDir))) with ⟨e2, r⟩
    simp [mainPart000, dispatchP0, hc, hg, createAppArchive, hk, ha,
      methodsCalled, eventsOf]
  · intro w c id hc
    rcases ha : w.agent.startApp id with ⟨e, r⟩
    simp [mainPart000, dispatchP0, hc, ha, methodsCalled, eventsOf]
  · intro w c id v hc
    rcases ha : w.agent.startAppVersion id v with ⟨e, r⟩
    simp [mainPart000, dispatchP0, hc, ha, methodsCalled, eventsOf]
  · intro w c id hc
    rcases ha : w.agent.stopApp id with ⟨e, r⟩
    simp [mainPart000, dispatchP0, hc, ha, methodsCalled, eventsOf]
  · intro w c id v hc
    rcases ha : w.agent.stopAppVersion id v with ⟨e, r⟩
    simp [mainPart000, dispatchP0, hc, ha, methodsCalled, eventsOf]
  · intro w c id hc
    rcases ha : w.agent.deleteApp id with ⟨e, r⟩
    simp [mainPart000, dispatchP0, hc, ha, methodsCalled, eventsOf]
  · intro w c id v hc
    rcases ha : w.agent.deleteAppVersion id v with ⟨e, r⟩
    simp [mainPart000, dispatchP0, hc, ha, methodsCalled, eventsOf]
  · intro w c id hc
    rcases h1 : w.agent.stopApp id with ⟨e1, r1⟩
    rcases h2 : w.agent.startApp id with ⟨e2, r2⟩
    simp [mainPart000, dispatchP0, hc, h1, h2, methodsCalled, eventsOf]
  · intro w c id v hc
    rcases h1 : w.agent.stopAppVersion id v with ⟨e1, r1⟩
    rcases h2 : w.agent.startAppVersion id v with ⟨e2, r2⟩
    simp [mainPart000, dispatchP0, hc, h1, h2, methodsCalled, eventsOf]

/-- Witness for the amended C7. -/
theorem operation_method_mapping_witness :
    methodsCalled (mainPart000 failWorld .list) = [.getApps]
    ∧ methodsCalled (mainPart000 failWorld (.delete (chars ("a")) none)) =
        [.deleteApp (chars ("a"))] :=
  ⟨operation_method_mapping.2.1 failWorld
      ⟨chars ("http://svc"), chars ("u:p")⟩ rfl,
   operation_method_mapping.2.2.2.2.2.2.2.2.2.1 failWorld
      ⟨chars ("http://svc"), chars ("u:p")⟩ (chars ("a")) rfl⟩

/-- C10: in both variants `connect` persists, as the credential string,
`fmt.Sprintf("%v:%v", ...)` of the raw option values: the two values
joined by a colon, with the literal text `<nil>` standing in for an
omitted `-u` or `-p` option — in particular `connect` with neither flag
stores `<nil>:<nil>`. -/
theorem connect_credentials_format :
    (∀ (w : World) (svc : List Char) (u p : Option (List Char)),
        (eventsOf (mainPart000 w (.connect svc u p))).head? =
          some (.wroteCredFile ⟨svc, joinCreds u p⟩))
    ∧ (∀ (w : World) (svc : List Char) (u p : Option (List Char)),
        (eventsOf (mainQ w (.connect svc u p))).head? =
          some (.wroteCredFile ⟨svc, joinCreds u p⟩))
    ∧ joinCreds none none = chars ("<nil>:<nil>")
    ∧ (∀ (u p : List Char), joinCreds (some u) (some p) = u ++ ':' :: p) := by
  refine ⟨?_, ?_, by decide, fun u p => rfl⟩
  · intro w svc u p
    by_cases h : w.credWriteOk = true <;> simp [mainPart000, eventsOf, h]
  · intro w svc u p
    by_cases h : w.credWriteOk = true <;>
      simp [mainQ, qUsageAccepts, eventsOf, h]

end Quartermaster
